import Mathlib

/-!
Shallow embedding of the `stickboy` UEFI Game Boy platform adapter
(`src/gb.rs`), together with theorems settling the specification claims.

The adapter implements the `rgy` emulator's `Hardware` trait on top of UEFI
firmware services.  Pure logic (the civil-calendar day count, the debounce
and rate-gating arithmetic of `sched`, the VRAM scanline writes, the blit
composition of `update_vram` and `clear`) is translated into executable Lean
definitions; firmware effects (blits, stalls, reset) are reified as data so
that theorems can speak about which effects a code path performs.

Machine integers: the Rust code works in `u64` (timestamps) and `usize`
(indices).  Timestamp subtraction is modelled with explicit wrap-around
modulo `2^64` (`wsub`), matching `u64::wrapping_sub` and release-mode `-`.
Indices never wrap on the paths modelled here and are plain `Nat`.
-/

/-- Modulus of 64-bit machine arithmetic. -/
def W64 : Nat := 2 ^ 64

/-- Wrapping 64-bit subtraction (`a.wrapping_sub(b)` on `u64`). -/
def wsub (a b : Nat) : Nat := (a % W64 + W64 - b % W64) % W64

theorem wsub_eq_sub {a b : Nat} (h1 : b ≤ a) (h2 : a < W64) : wsub a b = a - b := by
  simp only [wsub, W64] at *
  omega

/-- One physical pixel, three 8-bit channels (`BltPixel`). -/
structure Pixel where
  r : Nat
  g : Nat
  b : Nat
deriving DecidableEq

/-- Unpacking of a 24-bit packed `0xRRGGBB` colour into channels, from `fn pix`:
`r = (col >> 16) as u8`, `g = (col >> 8) as u8`, `b = col as u8`. -/
def pix (col : Nat) : Pixel :=
  { r := col / 2 ^ 16 % 256, g := col / 2 ^ 8 % 256, b := col % 256 }

/-- Blit operations issued to the graphics output protocol.  A source buffer
is modelled as its indexing function plus its length; `BltRegion::Full`
means the buffer pitch equals the destination width. -/
inductive BltOp where
  | videoFill (color : Pixel) (dest : Nat × Nat) (dims : Nat × Nat)
  | bufferToVideo (buffer : Nat → Pixel) (bufLen : Nat) (dest : Nat × Nat) (dims : Nat × Nat)

/-- Effect of one blit on the physical surface (a pixel function on
coordinates `(x, y)`). -/
def applyBlt (surf : Nat × Nat → Pixel) : BltOp → (Nat × Nat → Pixel)
  | BltOp.videoFill color dest dims => fun p =>
      if dest.1 ≤ p.1 ∧ p.1 < dest.1 + dims.1 ∧ dest.2 ≤ p.2 ∧ p.2 < dest.2 + dims.2 then
        color
      else surf p
  | BltOp.bufferToVideo buffer _ dest dims => fun p =>
      if dest.1 ≤ p.1 ∧ p.1 < dest.1 + dims.1 ∧ dest.2 ≤ p.2 ∧ p.2 < dest.2 + dims.2 then
        buffer ((p.2 - dest.2) * dims.1 + (p.1 - dest.1))
      else surf p

/-- Effect of a sequence of blits, first to last. -/
def applyOps (ops : List BltOp) (surf : Nat × Nat → Pixel) : Nat × Nat → Pixel :=
  ops.foldl applyBlt surf

/-- Reset types of the UEFI runtime services (only `Shutdown` is used). -/
inductive ResetTy where
  | cold
  | warm
  | shutdown
deriving DecidableEq

/-- UEFI `Status::SUCCESS`. -/
def STATUS_SUCCESS : Nat := 0

/-- Firmware effects a code path can perform, in order. -/
inductive Effect where
  | blt (op : BltOp)
  | stall (usec : Nat)
  | reset (ty : ResetTy) (status : Nat)

/-- Logical frame-buffer width; the constant `VRAM_WIDTH` imported from the
external `rgy` crate (the Game Boy LCD is 160 pixels wide). -/
def VRAM_WIDTH : Nat := 160

/-- Logical frame-buffer height; the constant `VRAM_HEIGHT` imported from the
external `rgy` crate (the Game Boy LCD is 144 pixels tall). -/
def VRAM_HEIGHT : Nat := 144

/-- An active key press, from `struct KeyInfo { key: char, time: u64 }`. -/
structure KeyInfo where
  key : Char
  time : Nat
deriving DecidableEq

/-- Adapter state, from `struct Hardware` (the `SystemTable` handle carries
no modelled state and is omitted; the `vram` array is its indexing
function). -/
structure HW where
  vramsz : Nat × Nat
  vram : Nat → Nat
  vramlast : Nat
  vramscale : Nat
  keylast : Nat
  pressed : Option KeyInfo

/-- Initial adapter state, from `Hardware::new`. -/
def HW.new : HW :=
  { vramsz := (0, 0), vram := fun _ => 0, vramlast := 0, vramscale := 1,
    keylast := 0, pressed := none }

/-! ## Civil-calendar day count (`fn days_from_civil`)

Rust integer division truncates toward zero, hence `Int.tdiv`. -/

/-- Day count of a proleptic-Gregorian date relative to 1970-01-01, translated
from `fn days_from_civil(y, m, d)`. -/
def days_from_civil (y m d : Int) : Int :=
  let y1 := if m ≤ 2 then y - 1 else y
  let era := Int.tdiv (if 0 ≤ y1 then y1 else y1 - 399) 400
  let yoe := y1 - era * 400
  let doy := Int.tdiv (153 * (m + (if 2 < m then -3 else 9)) + 2) 5 + d - 1
  let doe := yoe * 365 + Int.tdiv yoe 4 - Int.tdiv yoe 100 + doy
  era * 146097 + doe - 719468

/-! ## Stubbed trait methods -/

/-- Logical joypad keys of the external `rgy` crate's `Key` enum. -/
inductive GbKey where
  | right
  | left
  | up
  | down
  | a
  | b
  | select
  | start
deriving DecidableEq

/-- Translated from `fn joypad_pressed(&mut self, key: GbKey) -> bool`, whose
body is the literal `false`. -/
def joypad_pressed (_hw : HW) (_key : GbKey) : Bool := false

/-- Translated from `fn load_ram(&mut self, size) -> Vec<u8>`, whose body is
`vec![9; size]`. -/
def load_ram (size : Nat) : List Nat := List.replicate size 9

/-! ## Scanline writes (`fn vram_update`)

The Rust loop `for x in 0..buffer.len() { self.vram[VRAM_WIDTH * line + x] = buffer[x] }`
indexes a fixed array of `VRAM_HEIGHT * VRAM_WIDTH` cells; an out-of-bounds
index panics.  `writeRow` walks the buffer, checking each index exactly as
the array indexing does, and returns `none` at the first out-of-bounds
write (the panic). -/

/-- One array write per buffer element, starting at cell `base`; `none`
models the index-out-of-bounds panic. -/
def writeRow (v : Nat → Nat) (base : Nat) : List Nat → Option (Nat → Nat)
  | [] => some v
  | p :: rest =>
      if base < VRAM_HEIGHT * VRAM_WIDTH then
        writeRow (fun i => if i = base then p else v i) (base + 1) rest
      else
        none

/-- Translated from `fn vram_update(&mut self, line, buffer)`. -/
def vram_update (hw : HW) (line : Nat) (buffer : List Nat) : Option HW :=
  (writeRow hw.vram (VRAM_WIDTH * line) buffer).map fun v =>
    { hw with vram := v }

/-! ## Frame compositing (`fn setup`, `fn update_vram`) -/

/-- Scale factor computed by `Hardware::setup`:
`xscale = res.0 / VRAM_WIDTH; yscale = res.1 / VRAM_HEIGHT;
vramscale = xscale.min(yscale).max(1)`. -/
def setupScale (resW resH : Nat) : Nat :=
  Nat.max (Nat.min (resW / VRAM_WIDTH) (resH / VRAM_HEIGHT)) 1

/-- Scale used by `Hardware::update_vram`: the source hardcodes
`let scale = 1;` (the read of `self.vramscale` is commented out). -/
def updateVramScale : Nat := 1

/-- Indexing function of the `subvram` buffer built in `update_vram`:
indices below `w * h` follow the `map` over `0..(w * h)`, the
`chain`ed trailing row of `w` black pixels sits above them. -/
def subvramPix (vram : Nat → Nat) (xbase ybase scale : Nat) (i : Nat) : Pixel :=
  if i < VRAM_WIDTH * VRAM_HEIGHT then
    pix (vram ((i / VRAM_WIDTH + ybase) / scale * VRAM_WIDTH
      + (i % VRAM_WIDTH + xbase) / scale))
  else
    pix 0

/-- Blit operations issued by one call of `Hardware::update_vram`, in order:
for each `vramy` and `vramx` below `scale`, one buffer-to-video blit of
dims `(VRAM_WIDTH, VRAM_HEIGHT)` at dest `(vramx * w, vramy * h)`. -/
def updateVramOps (vram : Nat → Nat) : List BltOp :=
  (List.range updateVramScale).flatMap fun vramy =>
    (List.range updateVramScale).map fun vramx =>
      BltOp.bufferToVideo
        (subvramPix vram (vramx * VRAM_WIDTH) (vramy * VRAM_HEIGHT) updateVramScale)
        (VRAM_WIDTH * VRAM_HEIGHT + VRAM_WIDTH)
        (vramx * VRAM_WIDTH, vramy * VRAM_HEIGHT)
        (VRAM_WIDTH, VRAM_HEIGHT)

/-! ## Clear and shutdown (`fn clear`, `impl Drop for Hardware`) -/

/-- The solid fill issued by `Hardware::clear`: colour `(255, 255, 255)`,
dest `(0, 0)`, dims the current physical resolution. -/
def clearOp (res : Nat × Nat) : BltOp :=
  BltOp.videoFill { r := 255, g := 255, b := 255 } (0, 0) res

/-- Effects of `Hardware::clear`. -/
def clearEffects (res : Nat × Nat) : List Effect := [Effect.blt (clearOp res)]

/-- Effects of `Drop::drop for Hardware`, in order: `self.clear()`, then
`stall(3_000_000)`, then `reset(ResetType::Shutdown, Status::SUCCESS, None)`.
The reset call has return type `!`, so the trace ends there. -/
def dropEffects (res : Nat × Nat) : List Effect :=
  clearEffects res ++ [Effect.stall 3000000, Effect.reset ResetTy.shutdown STATUS_SUCCESS]

/-! ## Scheduler tick (`fn sched`)

`sched` reads the clock several times per invocation (`self.clock()` at each
call site) and reads at most one key event per invocation.  Both external
inputs are modelled as streams: `c : Nat → Nat` gives the value of the
`n`-th clock read of the session, `keys : Nat → Option UKey` the result of
the `n`-th `get_key` call; the indices `ci` and `ki` of the next unread
element are threaded through. -/

/-- Key events of the UEFI text input protocol (`Key::Special(ScanCode)` or
`Key::Printable(char)`); `none` from the stream models an empty queue. -/
inductive UKey where
  | special (code : Nat)
  | printable (ch : Char)
deriving DecidableEq

/-- UEFI `ScanCode::ESCAPE` (0x17). -/
def ESCAPE : Nat := 23

/-- Release check of the debounce machine, from the `_` arm of `sched`:
`if let Some(k) = self.pressed { if clk.wrapping_sub(k.time) > 200_000_000 { self.pressed = None } }`. -/
def keyRelease (pressed : Option KeyInfo) (clk : Nat) : Option KeyInfo :=
  match pressed with
  | some k => if 200000000 < wsub clk k.time then none else some k
  | none => none

/-- Result of one `sched` invocation: the new adapter state, the stream
positions, the returned continue flag, and whether `get_key` (`polled`) and
`update_vram` (`flushed`) were executed. -/
structure TickOut where
  hw : HW
  ci : Nat
  ki : Nat
  cont : Bool
  polled : Bool
  flushed : Bool

/-- Frame-flush half of `sched`:
`if self.clock() - self.vramlast >= 50_000 { self.vramlast = self.clock(); self.update_vram(); } true`. -/
def vramPhase (c : Nat → Nat) (hw : HW) (ci ki : Nat) (polled : Bool) : TickOut :=
  if 50000 ≤ wsub (c ci) hw.vramlast then
    { hw := { hw with vramlast := c (ci + 1) }, ci := ci + 2, ki := ki,
      cont := true, polled := polled, flushed := true }
  else
    { hw := hw, ci := ci + 1, ki := ki, cont := true, polled := polled, flushed := false }

/-- Translated from `fn sched(&mut self) -> bool`.  The key phase runs when
`clock() - keylast >= 20_000` (release-mode `u64` subtraction wraps); it
updates `keylast` from a fresh clock read, then matches the key event:
Escape returns `false` immediately, a printable key overwrites `pressed`
with a fresh timestamp, anything else runs the release check. -/
def sched (c : Nat → Nat) (keys : Nat → Option UKey) (hw : HW) (ci ki : Nat) : TickOut :=
  if 20000 ≤ wsub (c ci) hw.keylast then
    let hw1 : HW := { hw with keylast := c (ci + 1) }
    match keys ki with
    | some (UKey.special code) =>
        if code = ESCAPE then
          { hw := hw1, ci := ci + 2, ki := ki + 1, cont := false,
            polled := true, flushed := false }
        else
          vramPhase c { hw1 with pressed := keyRelease hw1.pressed (c (ci + 2)) }
            (ci + 3) (ki + 1) true
    | some (UKey.printable ch) =>
        vramPhase c { hw1 with pressed := some { key := ch, time := c (ci + 2) } }
          (ci + 3) (ki + 1) true
    | none =>
        vramPhase c { hw1 with pressed := keyRelease hw1.pressed (c (ci + 2)) }
          (ci + 3) (ki + 1) true
  else
    vramPhase c hw (ci + 1) ki false

/-- State reached after `k` scheduler ticks: adapter state and the two
stream positions. -/
def runState (c : Nat → Nat) (keys : Nat → Option UKey) (hw : HW) (ci ki : Nat) :
    Nat → HW × Nat × Nat
  | 0 => (hw, ci, ki)
  | k + 1 =>
      let s := runState c keys hw ci ki k
      let o := sched c keys s.1 s.2.1 s.2.2
      (o.hw, o.ci, o.ki)

/-- The `k`-th scheduler tick of a run (counting from 0). -/
def tickAt (c : Nat → Nat) (keys : Nat → Option UKey) (hw : HW) (ci ki : Nat)
    (k : Nat) : TickOut :=
  let s := runState c keys hw ci ki k
  sched c keys s.1 s.2.1 s.2.2

/-! ## Characterisation lemmas for `vramPhase` and `sched` -/

theorem vramPhase_polled (c : Nat → Nat) (hw : HW) (ci ki : Nat) (p : Bool) :
    (vramPhase c hw ci ki p).polled = p := by
  unfold vramPhase
  split <;> rfl

theorem vramPhase_cont (c : Nat → Nat) (hw : HW) (ci ki : Nat) (p : Bool) :
    (vramPhase c hw ci ki p).cont = true := by
  unfold vramPhase
  split <;> rfl

theorem vramPhase_pressed (c : Nat → Nat) (hw : HW) (ci ki : Nat) (p : Bool) :
    (vramPhase c hw ci ki p).hw.pressed = hw.pressed := by
  unfold vramPhase
  split <;> rfl

theorem vramPhase_keylast (c : Nat → Nat) (hw : HW) (ci ki : Nat) (p : Bool) :
    (vramPhase c hw ci ki p).hw.keylast = hw.keylast := by
  unfold vramPhase
  split <;> rfl

theorem vramPhase_vram (c : Nat → Nat) (hw : HW) (ci ki : Nat) (p : Bool) :
    (vramPhase c hw ci ki p).hw.vram = hw.vram := by
  unfold vramPhase
  split <;> rfl

theorem vramPhase_ki (c : Nat → Nat) (hw : HW) (ci ki : Nat) (p : Bool) :
    (vramPhase c hw ci ki p).ki = ki := by
  unfold vramPhase
  split <;> rfl

theorem vramPhase_ci (c : Nat → Nat) (hw : HW) (ci ki : Nat) (p : Bool) :
    ci + 1 ≤ (vramPhase c hw ci ki p).ci ∧ (vramPhase c hw ci ki p).ci ≤ ci + 2 := by
  unfold vramPhase
  split <;> simp

theorem vramPhase_flushed_true (c : Nat → Nat) (hw : HW) (ci ki : Nat) (p : Bool)
    (h : (vramPhase c hw ci ki p).flushed = true) :
    (vramPhase c hw ci ki p).ci = ci + 2 ∧
      50000 ≤ wsub (c ci) hw.vramlast ∧
      (vramPhase c hw ci ki p).hw.vramlast = c (ci + 1) := by
  by_cases hc : 50000 ≤ wsub (c ci) hw.vramlast
  · simp [vramPhase, hc]
  · simp [vramPhase, hc] at h

theorem vramPhase_flushed_false (c : Nat → Nat) (hw : HW) (ci ki : Nat) (p : Bool)
    (h : (vramPhase c hw ci ki p).flushed = false) :
    (vramPhase c hw ci ki p).hw.vramlast = hw.vramlast := by
  by_cases hc : 50000 ≤ wsub (c ci) hw.vramlast
  · simp [vramPhase, hc] at h
  · simp [vramPhase, hc]

/-- Helper case analysis on a `sched` invocation: either the key phase is
skipped and `sched` reduces to the flush phase one clock read later, or it
runs on some key event. -/
theorem sched_cases (c : Nat → Nat) (keys : Nat → Option UKey) (hw : HW) (ci ki : Nat) :
    (¬ 20000 ≤ wsub (c ci) hw.keylast ∧
      sched c keys hw ci ki = vramPhase c hw (ci + 1) ki false) ∨
    (20000 ≤ wsub (c ci) hw.keylast ∧
      ((keys ki = some (UKey.special ESCAPE) ∧
        sched c keys hw ci ki =
          { hw := { hw with keylast := c (ci + 1) }, ci := ci + 2, ki := ki + 1,
            cont := false, polled := true, flushed := false }) ∨
      ((∃ ch, keys ki = some (UKey.printable ch) ∧
        sched c keys hw ci ki =
          vramPhase c { hw with
              keylast := c (ci + 1)
              pressed := some { key := ch, time := c (ci + 2) } }
            (ci + 3) (ki + 1) true) ∨
      ((keys ki = none ∨ ∃ code, code ≠ ESCAPE ∧ keys ki = some (UKey.special code)) ∧
        sched c keys hw ci ki =
          vramPhase c { hw with
              keylast := c (ci + 1)
              pressed := keyRelease hw.pressed (c (ci + 2)) }
            (ci + 3) (ki + 1) true)))) := by
  unfold sched
  by_cases h : 20000 ≤ wsub (c ci) hw.keylast
  · refine Or.inr ⟨h, ?_⟩
    simp only [h, if_pos]
    cases hk : keys ki with
    | none =>
        exact Or.inr (Or.inr ⟨Or.inl rfl, rfl⟩)
    | some k =>
        cases k with
        | special code =>
            by_cases hc : code = ESCAPE
            · subst hc
              exact Or.inl ⟨rfl, by simp⟩
            · refine Or.inr (Or.inr ⟨Or.inr ⟨code, hc, rfl⟩, ?_⟩)
              simp [hc]
        | printable ch =>
            exact Or.inr (Or.inl ⟨ch, rfl, rfl⟩)
  · exact Or.inl ⟨h, by simp [h]⟩

theorem sched_polled_iff (c : Nat → Nat) (keys : Nat → Option UKey) (hw : HW) (ci ki : Nat) :
    (sched c keys hw ci ki).polled = true ↔ 20000 ≤ wsub (c ci) hw.keylast := by
  rcases sched_cases c keys hw ci ki with ⟨h, he⟩ | ⟨h, he⟩
  · rw [he, vramPhase_polled]
    simp [h]
  · constructor
    · intro _
      exact h
    · intro _
      rcases he with ⟨_, he⟩ | ⟨ch, _, he⟩ | ⟨_, he⟩ <;> simp [he, vramPhase_polled]

theorem sched_keylast_of_polled (c : Nat → Nat) (keys : Nat → Option UKey) (hw : HW)
    (ci ki : Nat) (h : (sched c keys hw ci ki).polled = true) :
    (sched c keys hw ci ki).hw.keylast = c (ci + 1) := by
  rcases sched_cases c keys hw ci ki with ⟨hc, he⟩ | ⟨hc, he⟩
  · rw [he, vramPhase_polled] at h
    exact absurd h (by simp)
  · rcases he with ⟨_, he⟩ | ⟨ch, _, he⟩ | ⟨_, he⟩ <;> simp [he, vramPhase_keylast]

theorem sched_not_polled_facts (c : Nat → Nat) (keys : Nat → Option UKey) (hw : HW)
    (ci ki : Nat) (h : (sched c keys hw ci ki).polled = false) :
    (sched c keys hw ci ki).hw.keylast = hw.keylast ∧
      (sched c keys hw ci ki).hw.pressed = hw.pressed ∧
      (sched c keys hw ci ki).cont = true ∧
      (sched c keys hw ci ki).ki = ki := by
  rcases sched_cases c keys hw ci ki with ⟨hc, he⟩ | ⟨hc, he⟩
  · rw [he]
    exact ⟨vramPhase_keylast .., vramPhase_pressed .., vramPhase_cont .., vramPhase_ki ..⟩
  · exfalso
    have := (sched_polled_iff c keys hw ci ki).2 hc
    rw [h] at this
    exact absurd this (by simp)

theorem sched_ci_bounds (c : Nat → Nat) (keys : Nat → Option UKey) (hw : HW) (ci ki : Nat) :
    ci + 1 ≤ (sched c keys hw ci ki).ci ∧ (sched c keys hw ci ki).ci ≤ ci + 5 := by
  rcases sched_cases c keys hw ci ki with ⟨hc, he⟩ | ⟨hc, he⟩
  · rw [he]
    have := vramPhase_ci c hw (ci + 1) ki false
    omega
  · rcases he with ⟨_, he⟩ | ⟨ch, _, he⟩ | ⟨_, he⟩ <;> rw [he]
    · simp
    · have := vramPhase_ci c
        { hw with
          keylast := c (ci + 1)
          pressed := some { key := ch, time := c (ci + 2) } } (ci + 3) (ki + 1) true
      omega
    · have := vramPhase_ci c
        { hw with
          keylast := c (ci + 1)
          pressed := keyRelease hw.pressed (c (ci + 2)) } (ci + 3) (ki + 1) true
      omega

theorem sched_flushed_true (c : Nat → Nat) (keys : Nat → Option UKey) (hw : HW) (ci ki : Nat)
    (h : (sched c keys hw ci ki).flushed = true) :
    50000 ≤ wsub (c ((sched c keys hw ci ki).ci - 2)) hw.vramlast ∧
      (sched c keys hw ci ki).hw.vramlast = c ((sched c keys hw ci ki).ci - 1) ∧
      ci ≤ (sched c keys hw ci ki).ci - 2 ∧
      ci + 2 ≤ (sched c keys hw ci ki).ci := by
  rcases sched_cases c keys hw ci ki with ⟨hc, he⟩ | ⟨hc, he⟩
  · rw [he] at h ⊢
    obtain ⟨h1, h2, h3⟩ := vramPhase_flushed_true c hw (ci + 1) ki false h
    rw [h1]
    simpa using ⟨h2, h3⟩
  · rcases he with ⟨_, he⟩ | ⟨ch, _, he⟩ | ⟨_, he⟩ <;> rw [he] at h ⊢
    · exact absurd h (by simp)
    · obtain ⟨h1, h2, h3⟩ := vramPhase_flushed_true c _ (ci + 3) (ki + 1) true h
      rw [h1]
      simpa using ⟨h2, h3⟩
    · obtain ⟨h1, h2, h3⟩ := vramPhase_flushed_true c _ (ci + 3) (ki + 1) true h
      rw [h1]
      simpa using ⟨h2, h3⟩

theorem sched_flushed_false (c : Nat → Nat) (keys : Nat → Option UKey) (hw : HW) (ci ki : Nat)
    (h : (sched c keys hw ci ki).flushed = false) :
    (sched c keys hw ci ki).hw.vramlast = hw.vramlast := by
  rcases sched_cases c keys hw ci ki with ⟨hc, he⟩ | ⟨hc, he⟩
  · rw [he] at h ⊢
    exact vramPhase_flushed_false c hw (ci + 1) ki false h
  · rcases he with ⟨_, he⟩ | ⟨ch, _, he⟩ | ⟨_, he⟩ <;> rw [he] at h ⊢ <;>
      first
        | rfl
        | simp [vramPhase_flushed_false c _ (ci + 3) (ki + 1) true h]

/-! ## Run-level lemmas -/

theorem runState_succ_fst (c : Nat → Nat) (keys : Nat → Option UKey) (hw : HW)
    (ci ki k : Nat) :
    (runState c keys hw ci ki (k + 1)).1 = (tickAt c keys hw ci ki k).hw := rfl

theorem runState_succ_ci (c : Nat → Nat) (keys : Nat → Option UKey) (hw : HW)
    (ci ki k : Nat) :
    (runState c keys hw ci ki (k + 1)).2.1 = (tickAt c keys hw ci ki k).ci := rfl

theorem runState_ci_succ (c : Nat → Nat) (keys : Nat → Option UKey) (hw : HW)
    (ci ki k : Nat) :
    (runState c keys hw ci ki k).2.1 + 1 ≤ (runState c keys hw ci ki (k + 1)).2.1 ∧
      (runState c keys hw ci ki (k + 1)).2.1 ≤ (runState c keys hw ci ki k).2.1 + 5 := by
  rw [runState_succ_ci]
  exact sched_ci_bounds c keys (runState c keys hw ci ki k).1
    (runState c keys hw ci ki k).2.1 (runState c keys hw ci ki k).2.2

theorem runState_ci_le (c : Nat → Nat) (keys : Nat → Option UKey) (hw : HW)
    (ci ki : Nat) : ∀ k, (runState c keys hw ci ki k).2.1 ≤ ci + 5 * k := by
  intro k
  induction k with
  | zero => simp [runState]
  | succ k ih =>
      have := runState_ci_succ c keys hw ci ki k
      omega

theorem runState_ci_mono (c : Nat → Nat) (keys : Nat → Option UKey) (hw : HW)
    (ci ki : Nat) : ∀ i j, i ≤ j →
      (runState c keys hw ci ki i).2.1 ≤ (runState c keys hw ci ki j).2.1 := by
  intro i j hij
  induction j with
  | zero =>
      have hi : i = 0 := Nat.le_zero.mp hij
      rw [hi]
  | succ j ih =>
      rcases Nat.lt_or_ge i (j + 1) with hlt | hge
      · have h1 := ih (Nat.lt_succ_iff.mp hlt)
        have h2 := runState_ci_succ c keys hw ci ki j
        omega
      · have : i = j + 1 := Nat.le_antisymm hij hge
        rw [this]

theorem runState_keylast_hold (c : Nat → Nat) (keys : Nat → Option UKey) (hw : HW)
    (ci ki k : Nat) (h : (tickAt c keys hw ci ki k).polled = false) :
    (runState c keys hw ci ki (k + 1)).1.keylast = (runState c keys hw ci ki k).1.keylast := by
  rw [runState_succ_fst]
  exact (sched_not_polled_facts c keys (runState c keys hw ci ki k).1
    (runState c keys hw ci ki k).2.1 (runState c keys hw ci ki k).2.2 h).1

theorem runState_keylast_poll (c : Nat → Nat) (keys : Nat → Option UKey) (hw : HW)
    (ci ki k : Nat) (h : (tickAt c keys hw ci ki k).polled = true) :
    (runState c keys hw ci ki (k + 1)).1.keylast = c ((runState c keys hw ci ki k).2.1 + 1) := by
  rw [runState_succ_fst]
  exact sched_keylast_of_polled c keys (runState c keys hw ci ki k).1
    (runState c keys hw ci ki k).2.1 (runState c keys hw ci ki k).2.2 h

theorem runState_keylast_between (c : Nat → Nat) (keys : Nat → Option UKey) (hw : HW)
    (ci ki i : Nat) : ∀ j, i + 1 ≤ j →
      (∀ m, i < m → m < j → (tickAt c keys hw ci ki m).polled = false) →
      (runState c keys hw ci ki j).1.keylast = (runState c keys hw ci ki (i + 1)).1.keylast := by
  intro j
  induction j with
  | zero => omega
  | succ j ih =>
      intro hj hnone
      rcases Nat.lt_or_ge (i + 1) (j + 1) with hlt | hge
      · have hij : i + 1 ≤ j := Nat.lt_succ_iff.mp hlt
        have h1 : (tickAt c keys hw ci ki j).polled = false :=
          hnone j (by omega) (by omega)
        rw [runState_keylast_hold c keys hw ci ki j h1]
        exact ih hij fun m hm1 hm2 => hnone m hm1 (by omega)
      · have : i + 1 = j + 1 := Nat.le_antisymm hj hge
        rw [this]

theorem runState_vramlast_hold (c : Nat → Nat) (keys : Nat → Option UKey) (hw : HW)
    (ci ki k : Nat) (h : (tickAt c keys hw ci ki k).flushed = false) :
    (runState c keys hw ci ki (k + 1)).1.vramlast = (runState c keys hw ci ki k).1.vramlast := by
  rw [runState_succ_fst]
  exact sched_flushed_false c keys (runState c keys hw ci ki k).1
    (runState c keys hw ci ki k).2.1 (runState c keys hw ci ki k).2.2 h

theorem runState_vramlast_between (c : Nat → Nat) (keys : Nat → Option UKey) (hw : HW)
    (ci ki i : Nat) : ∀ j, i + 1 ≤ j →
      (∀ m, i < m → m < j → (tickAt c keys hw ci ki m).flushed = false) →
      (runState c keys hw ci ki j).1.vramlast = (runState c keys hw ci ki (i + 1)).1.vramlast := by
  intro j
  induction j with
  | zero => omega
  | succ j ih =>
      intro hj hnone
      rcases Nat.lt_or_ge (i + 1) (j + 1) with hlt | hge
      · have hij : i + 1 ≤ j := Nat.lt_succ_iff.mp hlt
        have h1 : (tickAt c keys hw ci ki j).flushed = false :=
          hnone j (by omega) (by omega)
        rw [runState_vramlast_hold c keys hw ci ki j h1]
        exact ih hij fun m hm1 hm2 => hnone m hm1 (by omega)
      · have : i + 1 = j + 1 := Nat.le_antisymm hj hge
        rw [this]

/-- Rate-gating property of a run of `n` scheduler ticks: the clock readings
at which two consecutive key polls start differ by at least 20,000, the
clock readings at which two consecutive frame flushes are decided differ by
at least 50,000, and a tick that does not poll holds the debounced key
state unchanged, reads no key event, and returns true. -/
def RateGatingProperty (c : Nat → Nat) (keys : Nat → Option UKey) (hw0 : HW)
    (ci0 ki0 n : Nat) : Prop :=
  (∀ i j, i < j → j < n →
    (tickAt c keys hw0 ci0 ki0 i).polled = true →
    (tickAt c keys hw0 ci0 ki0 j).polled = true →
    (∀ m, i < m → m < j → (tickAt c keys hw0 ci0 ki0 m).polled = false) →
    c ((runState c keys hw0 ci0 ki0 i).2.1) + 20000 ≤
      c ((runState c keys hw0 ci0 ki0 j).2.1)) ∧
  (∀ i j, i < j → j < n →
    (tickAt c keys hw0 ci0 ki0 i).flushed = true →
    (tickAt c keys hw0 ci0 ki0 j).flushed = true →
    (∀ m, i < m → m < j → (tickAt c keys hw0 ci0 ki0 m).flushed = false) →
    c ((runState c keys hw0 ci0 ki0 (i + 1)).2.1 - 2) + 50000 ≤
      c ((runState c keys hw0 ci0 ki0 (j + 1)).2.1 - 2)) ∧
  (∀ m, (tickAt c keys hw0 ci0 ki0 m).polled = false →
    (tickAt c keys hw0 ci0 ki0 m).hw.pressed = (runState c keys hw0 ci0 ki0 m).1.pressed ∧
    (tickAt c keys hw0 ci0 ki0 m).cont = true ∧
    (tickAt c keys hw0 ci0 ki0 m).ki = (runState c keys hw0 ci0 ki0 m).2.2)

/-- C5: For every run of scheduler ticks, the key poll executes at most once
per 20,000-unit interval, the frame flush at most once per 50,000-unit
interval, and a tick that does not poll holds the debounced state
unchanged and returns true.  The clock stream is assumed monotone and
64-bit-representable on the (finitely many) reads the run can perform. -/
theorem sched_rate_gating (c : Nat → Nat) (keys : Nat → Option UKey) (hw0 : HW)
    (ci0 ki0 n : Nat)
    (Hm : ∀ b, b < ci0 + 5 * n → ∀ a, a ≤ b → c a ≤ c b)
    (Hb : ∀ a, a < ci0 + 5 * n → c a < W64) :
    RateGatingProperty c keys hw0 ci0 ki0 n := by
  unfold RateGatingProperty
  refine ⟨?_, ?_, ?_⟩
  · -- poll gap
    intro i j hij hjn hpi hpj hbet
    have hkb : (runState c keys hw0 ci0 ki0 (i + 1)).1.keylast =
        c ((runState c keys hw0 ci0 ki0 i).2.1 + 1) :=
      runState_keylast_poll c keys hw0 ci0 ki0 i hpi
    have hkj : (runState c keys hw0 ci0 ki0 j).1.keylast =
        (runState c keys hw0 ci0 ki0 (i + 1)).1.keylast :=
      runState_keylast_between c keys hw0 ci0 ki0 i j hij hbet
    have hcond : 20000 ≤ wsub (c ((runState c keys hw0 ci0 ki0 j).2.1))
        ((runState c keys hw0 ci0 ki0 j).1.keylast) :=
      (sched_polled_iff c keys (runState c keys hw0 ci0 ki0 j).1
        (runState c keys hw0 ci0 ki0 j).2.1 (runState c keys hw0 ci0 ki0 j).2.2).1 hpj
    rw [hkj, hkb] at hcond
    -- index ordering and bounds
    have hstep := runState_ci_succ c keys hw0 ci0 ki0 i
    have hmono : (runState c keys hw0 ci0 ki0 (i + 1)).2.1 ≤
        (runState c keys hw0 ci0 ki0 j).2.1 :=
      runState_ci_mono c keys hw0 ci0 ki0 (i + 1) j hij
    have hle : (runState c keys hw0 ci0 ki0 i).2.1 + 1 ≤
        (runState c keys hw0 ci0 ki0 j).2.1 := by omega
    have hub : (runState c keys hw0 ci0 ki0 j).2.1 < ci0 + 5 * n := by
      have := runState_ci_le c keys hw0 ci0 ki0 j
      omega
    have hcm : c ((runState c keys hw0 ci0 ki0 i).2.1 + 1) ≤
        c ((runState c keys hw0 ci0 ki0 j).2.1) :=
      Hm _ hub _ hle
    have hcm0 : c ((runState c keys hw0 ci0 ki0 i).2.1) ≤
        c ((runState c keys hw0 ci0 ki0 i).2.1 + 1) := by
      refine Hm _ ?_ _ (Nat.le_succ _)
      omega
    have hbv : c ((runState c keys hw0 ci0 ki0 j).2.1) < W64 := Hb _ hub
    rw [wsub_eq_sub hcm hbv] at hcond
    omega
  · -- flush gap
    intro i j hij hjn hfi hfj hbet
    have hti := sched_flushed_true c keys (runState c keys hw0 ci0 ki0 i).1
      (runState c keys hw0 ci0 ki0 i).2.1 (runState c keys hw0 ci0 ki0 i).2.2 hfi
    have htj := sched_flushed_true c keys (runState c keys hw0 ci0 ki0 j).1
      (runState c keys hw0 ci0 ki0 j).2.1 (runState c keys hw0 ci0 ki0 j).2.2 hfj
    rw [show (sched c keys (runState c keys hw0 ci0 ki0 i).1
          (runState c keys hw0 ci0 ki0 i).2.1 (runState c keys hw0 ci0 ki0 i).2.2).ci =
        (runState c keys hw0 ci0 ki0 (i + 1)).2.1 from rfl] at hti
    rw [show (sched c keys (runState c keys hw0 ci0 ki0 j).1
          (runState c keys hw0 ci0 ki0 j).2.1 (runState c keys hw0 ci0 ki0 j).2.2).ci =
        (runState c keys hw0 ci0 ki0 (j + 1)).2.1 from rfl] at htj
    obtain ⟨hcondi, hvli, hgei, hge2i⟩ := hti
    obtain ⟨hcondj, hvlj, hgej, hge2j⟩ := htj
    have hvlsucc : (runState c keys hw0 ci0 ki0 (i + 1)).1.vramlast =
        c ((runState c keys hw0 ci0 ki0 (i + 1)).2.1 - 1) := by
      rw [runState_succ_fst]
      exact hvli
    have hvbetween : (runState c keys hw0 ci0 ki0 j).1.vramlast =
        (runState c keys hw0 ci0 ki0 (i + 1)).1.vramlast :=
      runState_vramlast_between c keys hw0 ci0 ki0 i j hij hbet
    rw [hvbetween, hvlsucc] at hcondj
    -- index ordering and bounds
    have hmono : (runState c keys hw0 ci0 ki0 (i + 1)).2.1 ≤
        (runState c keys hw0 ci0 ki0 j).2.1 :=
      runState_ci_mono c keys hw0 ci0 ki0 (i + 1) j hij
    have hub : (runState c keys hw0 ci0 ki0 (j + 1)).2.1 - 2 < ci0 + 5 * n := by
      have h1 := runState_ci_le c keys hw0 ci0 ki0 (j + 1)
      have h2 : j + 1 ≤ n := hjn
      omega
    have hle : (runState c keys hw0 ci0 ki0 (i + 1)).2.1 - 1 ≤
        (runState c keys hw0 ci0 ki0 (j + 1)).2.1 - 2 := by omega
    have hcm : c ((runState c keys hw0 ci0 ki0 (i + 1)).2.1 - 1) ≤
        c ((runState c keys hw0 ci0 ki0 (j + 1)).2.1 - 2) :=
      Hm _ hub _ hle
    have hcm0 : c ((runState c keys hw0 ci0 ki0 (i + 1)).2.1 - 2) ≤
        c ((runState c keys hw0 ci0 ki0 (i + 1)).2.1 - 1) := by
      refine Hm _ ?_ _ (by omega)
      omega
    have hbv : c ((runState c keys hw0 ci0 ki0 (j + 1)).2.1 - 2) < W64 := Hb _ hub
    rw [wsub_eq_sub hcm hbv] at hcondj
    omega
  · -- hold between polls
    intro m hm
    obtain ⟨_, h2, h3, h4⟩ := sched_not_polled_facts c keys (runState c keys hw0 ci0 ki0 m).1
      (runState c keys hw0 ci0 ki0 m).2.1 (runState c keys hw0 ci0 ki0 m).2.2 hm
    exact ⟨h2, h3, h4⟩

/-! ## Lemmas about scanline writes -/

theorem writeRow_none_iff (l : List Nat) : ∀ (v : Nat → Nat) (base : Nat),
    writeRow v base l = none ↔
      0 < l.length ∧ VRAM_HEIGHT * VRAM_WIDTH < base + l.length := by
  induction l with
  | nil =>
      intro v base
      simp [writeRow]
  | cons p rest ih =>
      intro v base
      by_cases hb : base < VRAM_HEIGHT * VRAM_WIDTH
      · rw [writeRow, if_pos hb, ih]
        simp only [List.length_cons]
        omega
      · rw [writeRow, if_neg hb]
        simp only [List.length_cons]
        constructor
        · intro _
          omega
        · intro _
          trivial

theorem writeRow_some (l : List Nat) : ∀ (v : Nat → Nat) (base : Nat),
    base + l.length ≤ VRAM_HEIGHT * VRAM_WIDTH →
    ∃ v', writeRow v base l = some v' ∧
      ∀ i, v' i = if base ≤ i ∧ i < base + l.length then l.getD (i - base) 0 else v i := by
  induction l with
  | nil =>
      intro v base _
      refine ⟨v, rfl, fun i => ?_⟩
      simp only [List.length_nil, Nat.add_zero]
      split
      · omega
      · rfl
  | cons p rest ih =>
      intro v base hlen
      have hb : base < VRAM_HEIGHT * VRAM_WIDTH := by
        simp only [List.length_cons] at hlen
        omega
      obtain ⟨v', hv', hchar⟩ := ih (fun i => if i = base then p else v i) (base + 1)
        (by simp only [List.length_cons] at hlen; omega)
      refine ⟨v', ?_, fun i => ?_⟩
      · rw [writeRow, if_pos hb]
        exact hv'
      · rw [hchar i]
        simp only [List.length_cons]
        by_cases h1 : base + 1 ≤ i ∧ i < base + 1 + rest.length
        · rw [if_pos h1, if_pos (by omega)]
          have : i - base = (i - (base + 1)) + 1 := by omega
          rw [this]
          rfl
        · rw [if_neg h1]
          by_cases h2 : i = base
          · rw [if_pos h2, if_pos (by omega), h2]
            simp
          · rw [if_neg h2, if_neg (by omega)]

/-! ## Concrete fixtures used by counterexamples and witnesses -/

/-- Adapter state with the printable key `a` pressed at time 0. -/
def hwPressedA : HW := { HW.new with pressed := some { key := 'a', time := 0 } }

/-- Clock stream that always reads 200,001. -/
def cAt200001 : Nat → Nat := fun _ => 200001

/-- Clock stream that always reads 200,000,001. -/
def cAt200000001 : Nat → Nat := fun _ => 200000001

/-- Clock stream that always reads 20,000. -/
def cConst20000 : Nat → Nat := fun _ => 20000

/-- Clock stream advancing 10,000 units per read. -/
def cLin : Nat → Nat := fun a => 10000 * a

/-- Key stream with an empty input queue. -/
def keysNone : Nat → Option UKey := fun _ => none

/-- Key stream that always returns the Escape key. -/
def keysEsc : Nat → Option UKey := fun _ => some (UKey.special ESCAPE)

/-- Logical frame buffer whose pixel 0 is pure red and every other cell pure
blue. -/
def vCex : Nat → Nat := fun i => if i = 0 then 0xFF0000 else 0x0000FF

/-- All-black physical surface. -/
def surfBlack : Nat × Nat → Pixel := fun _ => { r := 0, g := 0, b := 0 }

/-! ## Claim C1 -/

/-- C1 counterexample: with the printable key `a` pressed at time 0 (an
active KeyState) and no release threshold reached, `joypad_pressed` still
answers `false` for every logical key — here queried at `A` — refuting the
spec scenario in which a press makes `joypad_pressed` true before the
release threshold. -/
theorem joypad_pressed_active_key_cex :
    hwPressedA.pressed.isSome = true ∧ joypad_pressed hwPressedA GbKey.a = false := by
  decide

/-- C1 amended: `joypad_pressed` returns `false` for every adapter state and
every logical key; the fixed raw-to-logical key mapping is empty, so no raw
key maps to any logical key and an active KeyState never makes any query
true. -/
theorem joypad_pressed_const_false (hw : HW) (key : GbKey) :
    joypad_pressed hw key = false := rfl

/-! ## Claim C2 -/

/-- C2 counterexample: at physical resolution 640 × 576 the setup scale
factor is R = 4, so the claim places physical pixel (1, 0) inside the 4 × 4
block of logical pixel (0, 0) (centring offsets are 0), demanding the colour
of logical pixel 0; the compositor instead writes the colour of logical
pixel 1 there, because it blits unscaled at the origin. -/
theorem updateVram_centered_upscale_cex :
    setupScale 640 576 = 4 ∧
      applyOps (updateVramOps vCex) surfBlack (1, 0) ≠ pix (vCex 0) := by
  decide

/-- C2 amended: when the flush is due, `update_vram` composites the logical
buffer unscaled at the physical origin: the hardcoded scale is 1, so every
logical pixel (x, y) is written to exactly the physical pixel (x, y), every
physical pixel outside the logical extent is untouched, and the scale factor
computed at setup is stored but never used by the compositor. -/
theorem updateVram_unscaled_at_origin (v : Nat → Nat) (s : Nat × Nat → Pixel) (x y : Nat) :
    (x < VRAM_WIDTH → y < VRAM_HEIGHT →
      applyOps (updateVramOps v) s (x, y) = pix (v (y * VRAM_WIDTH + x))) ∧
    (VRAM_WIDTH ≤ x ∨ VRAM_HEIGHT ≤ y →
      applyOps (updateVramOps v) s (x, y) = s (x, y)) := by
  have hops : applyOps (updateVramOps v) s =
      applyBlt s (BltOp.bufferToVideo (subvramPix v 0 0 1)
        (VRAM_WIDTH * VRAM_HEIGHT + VRAM_WIDTH) (0, 0) (VRAM_WIDTH, VRAM_HEIGHT)) := by
    have hrange : List.range 1 = [0] := rfl
    simp [updateVramOps, updateVramScale, applyOps, hrange, Nat.zero_mul]
  constructor
  · intro hx hy
    rw [hops]
    show (if 0 ≤ x ∧ x < 0 + VRAM_WIDTH ∧ 0 ≤ y ∧ y < 0 + VRAM_HEIGHT then
        subvramPix v 0 0 1 ((y - 0) * VRAM_WIDTH + (x - 0)) else s (x, y)) =
      pix (v (y * VRAM_WIDTH + x))
    rw [if_pos (by omega)]
    have hlt : y * VRAM_WIDTH + x < VRAM_WIDTH * VRAM_HEIGHT := by
      unfold VRAM_WIDTH VRAM_HEIGHT at *
      omega
    have h1 : (y * VRAM_WIDTH + x) / VRAM_WIDTH = y := by
      unfold VRAM_WIDTH at *
      omega
    have h2 : (y * VRAM_WIDTH + x) % VRAM_WIDTH = x := by
      unfold VRAM_WIDTH at *
      omega
    simp only [Nat.sub_zero, subvramPix, if_pos hlt, Nat.add_zero, Nat.div_one, h1, h2]
  · intro hout
    rw [hops]
    show (if 0 ≤ x ∧ x < 0 + VRAM_WIDTH ∧ 0 ≤ y ∧ y < 0 + VRAM_HEIGHT then
        subvramPix v 0 0 1 ((y - 0) * VRAM_WIDTH + (x - 0)) else s (x, y)) = s (x, y)
    rw [if_neg (by omega)]

/-- C2 witness: the amended theorem evaluated at logical pixel (3, 2). -/
theorem updateVram_unscaled_at_origin_witness :
    applyOps (updateVramOps vCex) surfBlack (3, 2) = pix (vCex (2 * VRAM_WIDTH + 3)) :=
  (updateVram_unscaled_at_origin vCex surfBlack 3 2).1 (by decide) (by decide)

/-! ## Claim C3 -/

/-- C3 counterexample: key `a` pressed at time 0, a tick with every clock
read at 200,001 and no new event: the poll runs, yet the key is NOT cleared
(the claim says elapsed 200,001 exceeds the threshold and yields Idle); the
code threshold is 200,000,000, not 200,000. -/
theorem sched_release_at_200001_cex :
    (sched cAt200001 keysNone hwPressedA 0 0).polled = true ∧
      (sched cAt200001 keysNone hwPressedA 0 0).hw.pressed ≠ none := by
  decide

/-- C3 amended: when the key phase runs and no new event is read, a pressed
key with press time `pt` is cleared exactly when the wrapping elapsed time
`now - pt` strictly exceeds 200,000,000 time units (not 200,000); below or
at that bound the key stays pressed unchanged. -/
theorem sched_release_threshold (c : Nat → Nat) (keys : Nat → Option UKey) (hw : HW)
    (ci ki : Nat) (ch : Char) (pt : Nat)
    (h1 : 20000 ≤ wsub (c ci) hw.keylast)
    (h2 : keys ki = none)
    (h3 : hw.pressed = some { key := ch, time := pt }) :
    ((sched c keys hw ci ki).hw.pressed = none ↔ 200000000 < wsub (c (ci + 2)) pt) ∧
    (wsub (c (ci + 2)) pt ≤ 200000000 →
      (sched c keys hw ci ki).hw.pressed = some { key := ch, time := pt }) := by
  unfold sched
  simp only [h1, if_true, h2]
  rw [vramPhase_pressed]
  show (keyRelease hw.pressed (c (ci + 2)) = none ↔ _) ∧ _
  rw [h3]
  by_cases hrel : 200000000 < wsub (c (ci + 2)) pt
  · refine ⟨by simp [keyRelease, hrel], fun hle => ?_⟩
    omega
  · refine ⟨by simp [keyRelease, hrel], fun _ => by simp [keyRelease, hrel]⟩

/-- C3 witness: the amended theorem evaluated with a press at time 0 and a
tick whose clock reads 200,000,001, which clears the key. -/
theorem sched_release_threshold_witness :
    20000 ≤ wsub (cAt200000001 0) hwPressedA.keylast ∧
    keysNone 0 = none ∧
    hwPressedA.pressed = some { key := 'a', time := 0 } ∧
    (((sched cAt200000001 keysNone hwPressedA 0 0).hw.pressed = none ↔
        200000000 < wsub (cAt200000001 2) 0) ∧
      (wsub (cAt200000001 2) 0 ≤ 200000000 →
        (sched cAt200000001 keysNone hwPressedA 0 0).hw.pressed =
          some { key := 'a', time := 0 })) :=
  ⟨by decide, rfl, rfl,
    sched_release_threshold cAt200000001 keysNone hwPressedA 0 0 'a' 0 (by decide) rfl rfl⟩

/-! ## Claim C4 -/

/-- C4 counterexample: a scanline write of length 1 (the buffer width is
160) does not fail: it silently writes its single pixel into cell 0 and
returns a state, refuting the claim that every mismatched row length fails
fast. -/
theorem vram_update_silent_partial_cex :
    ((vram_update HW.new 0 [5]).map fun h => h.vram 0) = some 5 ∧
      ([5] : List Nat).length ≠ VRAM_WIDTH := by
  decide

/-- C4 amended: `vram_update` performs no length validation at all: it
writes exactly `buffer.length` cells starting at `VRAM_WIDTH * line`,
silently part-writing shorter rows and spilling longer rows into following
rows; it fails (the out-of-bounds panic, modelled as `none`) if and only if
the buffer is nonempty and runs past the end of the whole VRAM array. -/
theorem vram_update_none_iff (hw : HW) (line : Nat) (buffer : List Nat) :
    vram_update hw line buffer = none ↔
      0 < buffer.length ∧
        VRAM_HEIGHT * VRAM_WIDTH < VRAM_WIDTH * line + buffer.length := by
  have hmap : vram_update hw line buffer = none ↔
      writeRow hw.vram (VRAM_WIDTH * line) buffer = none := by
    rw [vram_update]
    cases writeRow hw.vram (VRAM_WIDTH * line) buffer <;> simp
  rw [hmap, writeRow_none_iff]

/-! ## Claim C5 -/

/-- C5 witness: the rate-gating theorem instantiated on a 2-tick run with a
clock advancing 10,000 units per read and an empty input queue. -/
theorem sched_rate_gating_witness :
    (∀ b, b < 0 + 5 * 2 → ∀ a, a ≤ b → cLin a ≤ cLin b) ∧
    (∀ a, a < 0 + 5 * 2 → cLin a < W64) ∧
    RateGatingProperty cLin keysNone HW.new 0 0 2 :=
  ⟨by decide, by decide,
    sched_rate_gating cLin keysNone HW.new 0 0 2 (by decide) (by decide)⟩

/-! ## Claim C6 -/

/-- C6: the civil-calendar day count satisfies both anchor equalities:
`days_from_civil 1970 1 1 = 0` and `days_from_civil 2000 3 1 = 11017`. -/
theorem days_from_civil_anchors :
    days_from_civil 1970 1 1 = 0 ∧ days_from_civil 2000 3 1 = 11017 := by
  constructor <;> decide

/-! ## Claim C7 -/

/-- C7: when the key phase runs and the key read is the Escape scan code,
`sched` returns `false` and performs no further work: the pressed KeyState
is unchanged, the frame flush does not execute, and the logical frame
buffer and its flush timestamp are untouched. -/
theorem sched_cancel_short_circuit (c : Nat → Nat) (keys : Nat → Option UKey) (hw : HW)
    (ci ki : Nat)
    (h1 : 20000 ≤ wsub (c ci) hw.keylast)
    (h2 : keys ki = some (UKey.special ESCAPE)) :
    (sched c keys hw ci ki).cont = false ∧
    (sched c keys hw ci ki).polled = true ∧
    (sched c keys hw ci ki).hw.pressed = hw.pressed ∧
    (sched c keys hw ci ki).flushed = false ∧
    (sched c keys hw ci ki).hw.vramlast = hw.vramlast ∧
    (sched c keys hw ci ki).hw.vram = hw.vram := by
  unfold sched
  simp [h1, h2]

/-- C7 witness: the short-circuit theorem evaluated on a tick whose clock
reads 20,000 and whose queue holds the Escape key. -/
theorem sched_cancel_short_circuit_witness :
    20000 ≤ wsub (cConst20000 0) HW.new.keylast ∧
    keysEsc 0 = some (UKey.special ESCAPE) ∧
    ((sched cConst20000 keysEsc HW.new 0 0).cont = false ∧
      (sched cConst20000 keysEsc HW.new 0 0).polled = true ∧
      (sched cConst20000 keysEsc HW.new 0 0).hw.pressed = HW.new.pressed ∧
      (sched cConst20000 keysEsc HW.new 0 0).flushed = false ∧
      (sched cConst20000 keysEsc HW.new 0 0).hw.vramlast = HW.new.vramlast ∧
      (sched cConst20000 keysEsc HW.new 0 0).hw.vram = HW.new.vram) :=
  ⟨by decide, rfl,
    sched_cancel_short_circuit cConst20000 keysEsc HW.new 0 0 (by decide) rfl⟩

/-! ## Claim C8 -/

/-- C8: the shutdown sequence of the adapter's `Drop` implementation
performs exactly, in order: one solid fill of the entire physical surface
with the fixed neutral colour (255, 255, 255), a bounded stall of 3,000,000
time units, and the irreversible power-off request with a success status;
the reset call never returns, so the trace ends there. -/
theorem drop_shutdown_sequence (res : Nat × Nat) :
    dropEffects res = [Effect.blt (BltOp.videoFill { r := 255, g := 255, b := 255 } (0, 0) res),
      Effect.stall 3000000, Effect.reset ResetTy.shutdown STATUS_SUCCESS] ∧
    (∀ s x y, x < res.1 → y < res.2 →
      applyBlt s (clearOp res) (x, y) = { r := 255, g := 255, b := 255 }) := by
  refine ⟨rfl, fun s x y hx hy => ?_⟩
  show (if 0 ≤ x ∧ x < 0 + res.1 ∧ 0 ≤ y ∧ y < 0 + res.2 then
      ({ r := 255, g := 255, b := 255 } : Pixel) else s (x, y)) =
    { r := 255, g := 255, b := 255 }
  rw [if_pos (by omega)]

/-- C8 witness: the shutdown-sequence theorem evaluated at resolution
640 × 480 and physical pixel (5, 7). -/
theorem drop_shutdown_sequence_witness :
    applyBlt surfBlack (clearOp (640, 480)) (5, 7) = { r := 255, g := 255, b := 255 } :=
  (drop_shutdown_sequence (640, 480)).2 surfBlack 5 7 (by decide) (by decide)

/-! ## Claim C9 -/

/-- C9: for every requested size `n`, `load_ram n` returns exactly `n`
bytes, every one of which is the filler value 9. -/
theorem load_ram_length_and_fill (n : Nat) :
    (load_ram n).length = n ∧ (load_ram n).all (fun b => b == 9) = true := by
  constructor
  · simp [load_ram]
  · rw [List.all_eq_true]
    intro b hb
    have := List.eq_of_mem_replicate hb
    simp [this]

/-! ## Claim C10 -/

/-- C10: when the written row fits inside the VRAM array, `vram_update`
succeeds and changes exactly the cells `VRAM_WIDTH * line` through
`VRAM_WIDTH * line + buffer.length - 1` (to the buffer's values); every
other VRAM cell and every other field of the adapter state — `vramsz`, the
flush timestamp, the scale, the poll timestamp and the pressed key — is
unchanged. -/
theorem vram_update_row_effect (hw : HW) (line : Nat) (buffer : List Nat)
    (h : VRAM_WIDTH * line + buffer.length ≤ VRAM_HEIGHT * VRAM_WIDTH) :
    ∃ hw', vram_update hw line buffer = some hw' ∧
      (∀ i, i < VRAM_WIDTH * line ∨ VRAM_WIDTH * line + buffer.length ≤ i →
        hw'.vram i = hw.vram i) ∧
      (∀ x, x < buffer.length →
        hw'.vram (VRAM_WIDTH * line + x) = buffer.getD x 0) ∧
      hw'.vramsz = hw.vramsz ∧ hw'.vramlast = hw.vramlast ∧
      hw'.vramscale = hw.vramscale ∧ hw'.keylast = hw.keylast ∧
      hw'.pressed = hw.pressed := by
  obtain ⟨v', hv', hchar⟩ := writeRow_some buffer hw.vram (VRAM_WIDTH * line) h
  refine ⟨{ hw with vram := v' }, ?_, ?_, ?_, rfl, rfl, rfl, rfl, rfl⟩
  · rw [vram_update, hv']
    rfl
  · intro i hi
    show v' i = hw.vram i
    rw [hchar i, if_neg (by omega)]
  · intro x hx
    show v' (VRAM_WIDTH * line + x) = buffer.getD x 0
    rw [hchar _, if_pos (by omega)]
    congr 1
    omega

/-- C10 witness: the frame-effect theorem evaluated on a write of the
two-pixel row `[7, 8]` into line 1 of the initial state. -/
theorem vram_update_row_effect_witness :
    VRAM_WIDTH * 1 + ([7, 8] : List Nat).length ≤ VRAM_HEIGHT * VRAM_WIDTH ∧
    (∃ hw', vram_update HW.new 1 [7, 8] = some hw' ∧
      (∀ i, i < VRAM_WIDTH * 1 ∨ VRAM_WIDTH * 1 + ([7, 8] : List Nat).length ≤ i →
        hw'.vram i = HW.new.vram i) ∧
      (∀ x, x < ([7, 8] : List Nat).length →
        hw'.vram (VRAM_WIDTH * 1 + x) = ([7, 8] : List Nat).getD x 0) ∧
      hw'.vramsz = HW.new.vramsz ∧ hw'.vramlast = HW.new.vramlast ∧
      hw'.vramscale = HW.new.vramscale ∧ hw'.keylast = HW.new.keylast ∧
      hw'.pressed = HW.new.pressed) :=
  ⟨by decide, vram_update_row_effect HW.new 1 [7, 8] (by decide)⟩
